import Mathlib

/-!
Verification development for the sshkeygen vanity SSH key search program.

Strings are modelled as lists of characters, byte buffers as lists of
natural numbers.  The chacha20 stream cipher from the external crypto
library is abstracted as a keystream function together with a byte
position; the ssh/pem codec routines are abstracted as an opaque record
of pure functions, as the specification treats them (an opaque codec
library).  All definitions below are translated from the Go sources of
the repository, except where a doc comment says a definition is modelled
from the spec because the corresponding code is an external collaborator.
-/

namespace Sshkeygen

/-! ### Go string primitives used by the program -/

/-- Go strings.ToLower, modelled per character. -/
def goToLower (s : List Char) : List Char := s.map Char.toLower

/-- Go strings.HasSuffix: the length check together with equality of the
trailing segment of the length of the candidate ending. -/
def goHasSuffix (s t : List Char) : Bool :=
  decide (t.length ≤ s.length) && decide (s.drop (s.length - t.length) = t)

/-- The conditional case folding performed by hasSuffix in main.go
(lines 169-175): lowercasing is applied only when the ignore-case flag
is set. -/
def foldCase (ic : Bool) (s : List Char) : List Char :=
  if ic then goToLower s else s

/-- hasSuffix from src/main.go lines 168-181: fold the candidate once,
fold each configured ending, and return true when the folded candidate
ends with at least one folded ending. -/
def hasSuffix (ic : Bool) (s : List Char) (suffixes : List (List Char)) : Bool :=
  let s2 := foldCase ic s
  suffixes.any fun t => goHasSuffix s2 (foldCase ic t)

/-- Go strings.TrimSpace: drop whitespace characters from both ends. -/
def goTrimSpace (s : List Char) : List Char :=
  ((s.dropWhile Char.isWhitespace).reverse.dropWhile Char.isWhitespace).reverse

/-- Go strings.Split with a single-character separator, as used on the
marshalled public-key line in generateKeys (main.go line 159). -/
def goSplit (sep : Char) : List Char → List (List Char)
  | [] => [[]]
  | c :: cs =>
    if c = sep then [] :: goSplit sep cs
    else
      match goSplit sep cs with
      | [] => [[c]]
      | p :: ps => (c :: p) :: ps

/-! ### The per-worker RNG stream -/

/-- State of a chacha20.Cipher: the keystream determined by the key and
nonce, abstracted as a function from byte positions to byte values, and
the current position in the stream. -/
structure Chacha20Cipher where
  ks : Nat → Nat
  pos : Nat

/-- cipher.XORKeyStream: XOR the source buffer with the next keystream
bytes and advance the position. -/
def Chacha20Cipher.XORKeyStream (c : Chacha20Cipher) (src : List Nat) :
    List Nat × Chacha20Cipher :=
  ((List.range src.length).map fun i => Nat.xor (src.getD i 0) (c.ks (c.pos + i)),
   ⟨c.ks, c.pos + src.length⟩)

/-- chacha20Reader from src/main.go lines 52-54. -/
structure Chacha20Reader where
  cipher : Chacha20Cipher

/-- chacha20Reader.Read from src/main.go lines 56-61: generate keystream
bytes by XORing a zero-filled buffer, and return the full requested
length together with a nil error (modelled as none). -/
def Chacha20Reader.Read (r : Chacha20Reader) (n : Nat) :
    (List Nat × Nat × Option String) × Chacha20Reader :=
  let zeros := List.replicate n 0
  let (out, c2) := r.cipher.XORKeyStream zeros
  ((out, n, none), ⟨c2⟩)

/-- An io.Reader consumed through io.ReadFull, which succeeds exactly
when the underlying Read delivers all requested bytes without error. -/
structure GoReader (σ : Type) where
  readFull : σ → Nat → Option (List Nat) × σ

/-- The io.Reader view of a chacha20Reader. -/
def chachaAsReader : GoReader Chacha20Reader :=
  ⟨fun r n =>
    let ((bs, cnt, err), r2) := r.Read n
    (if err = none ∧ cnt = n ∧ bs.length = n then some bs else none, r2)⟩

/-- chacha20.NewUnauthenticatedCipher: accepts a 32-byte key and a nonce
of one of the supported sizes; the keystream family cks abstracts the
chacha20 keystream derivation from key and nonce. -/
def newUnauthenticatedCipher (cks : List Nat → List Nat → Nat → Nat)
    (key nonce : List Nat) : Option Chacha20Cipher :=
  if key.length = 32 ∧ (nonce.length = 12 ∨ nonce.length = 24) then
    some ⟨cks key nonce, 0⟩
  else none

/-- worker from src/main.go lines 27-29. -/
structure worker where
  rng : Chacha20Reader

/-- newWorker from src/main.go lines 31-50: read a 32-byte key and a
24-byte nonce from the OS entropy source (each read outcome supplied as
an Option, none meaning a failed read), then initialize the cipher.  Any
failure propagates as none; no other randomness source is consulted. -/
def newWorker (cks : List Nat → List Nat → Nat → Nat)
    (keyRead nonceRead : Option (List Nat)) : Option worker :=
  match keyRead with
  | none => none
  | some key =>
    match nonceRead with
    | none => none
    | some nonce =>
      match newUnauthenticatedCipher cks key nonce with
      | none => none
      | some cipher => some ⟨⟨cipher⟩⟩

/-! ### Key generation and encoding -/

/-- The opaque codec collaborators used by generateKeys: derivation of
the ssh public-key wire blob from the 32-byte seed via NewSignerFromKey
(which may fail), the OpenSSH private-key PEM encoding via
MarshalPrivateKey and EncodeToMemory (which may fail), the base64
encoding of a blob, and the algorithm identifier text. -/
structure Codec where
  newSignerPub : List Nat → Option (List Nat)
  marshalPrivatePEM : List Nat → Option (List Char)
  base64 : List Nat → List Char
  algId : List Char

/-- Modelled from the spec: ssh.MarshalAuthorizedKey (an external codec
routine not in this repository) produces the line
algorithm-id, space, base64 of the public-key blob, newline. -/
def marshalAuthorizedKey (c : Codec) (blob : List Nat) : List Char :=
  c.algId ++ ' ' :: c.base64 blob ++ ['\n']

inductive GenErr where
  | rngRead
  | signerErr
  | marshalPrivErr
  | invalidFormat
deriving DecidableEq

/-- The three values returned by generateKeys on success. -/
structure GenOut where
  privateKeyPEM : List Char
  publicKeyBytes : List Char
  base64Data : List Char
deriving DecidableEq

/-- generateKeys from src/main.go lines 139-166: read a 32-byte seed
from the rng (ed25519.GenerateKey), build the signer, marshal the
private key to PEM, marshal the authorized-key line, trim it, split it
on spaces, require at least two fields, and return the second field as
base64Data. -/
def generateKeys {σ : Type} (c : Codec) (rd : GoReader σ) (s : σ) :
    Except GenErr GenOut × σ :=
  let res := rd.readFull s 32
  let s2 := res.2
  match res.1 with
  | none => (.error .rngRead, s2)
  | some seed =>
    match c.newSignerPub seed with
    | none => (.error .signerErr, s2)
    | some pubBlob =>
      match c.marshalPrivatePEM seed with
      | none => (.error .marshalPrivErr, s2)
      | some pemBytes =>
        let publicKeyBytes := marshalAuthorizedKey c pubBlob
        let publicKeyStr := goTrimSpace publicKeyBytes
        let parts := goSplit ' ' publicKeyStr
        if parts.length < 2 then (.error .invalidFormat, s2)
        else (.ok ⟨pemBytes, publicKeyBytes, parts.getD 1 []⟩, s2)

/-- publicKeyString from src/unnamed/part_000 lines 255-258: the full
public-key textual form algorithm-id, space, base64 of the public-key
blob (no trailing newline), built with fmt.Sprintf. -/
def publicKeyString (c : Codec) (blob : List Nat) : List Char :=
  c.algId ++ ' ' :: c.base64 blob

/-- The suffix test of the worker variant in src/unnamed/part_000 lines
206-214: there hasSuffix is applied to the full publicKeyString text of
the candidate. -/
def variantSuffixTest (ic : Bool) (c : Codec) (suffixes : List (List Char))
    (blob : List Nat) : Bool :=
  hasSuffix ic (publicKeyString c blob) suffixes

/-! ### The worker loop, counters and orchestrator -/

/-- Outcome of the two file writes attempted on a match; the writes are
the external storage primitive, so their success is an input of the
model. -/
structure FsEnv where
  privOk : Bool
  pubOk : Bool
deriving DecidableEq

/-- Observable effects of one iteration of the worker loop: counter
deltas, how many times each write was attempted, whether it succeeded,
and whether the private-key file was removed afterwards. -/
structure IterEffects where
  attemptsDelta : Nat
  matchesDelta : Nat
  privWriteAttempts : Nat
  privWritten : Bool
  pubWriteAttempts : Nat
  pubWritten : Bool
  privRemoved : Bool
deriving DecidableEq

/-- Effects of an iteration that generated nothing and wrote nothing. -/
def noEffects : IterEffects := ⟨0, 0, 0, false, 0, false, false⟩

/-- One iteration of the worker loop from src/main.go lines 97-120:
generate and encode a key pair; on error log and continue with no
counter update; otherwise count the attempt, test the suffix, and on a
match count it and write the private key and then the public key,
abandoning the match at the first failed write.  No branch removes the
private-key file. -/
def workerIter (ic : Bool) (c : Codec) (suffixes : List (List Char))
    (r : Chacha20Reader) (env : FsEnv) : IterEffects × Chacha20Reader :=
  let res := generateKeys c chachaAsReader r
  let r2 := res.2
  match res.1 with
  | .error _ => (noEffects, r2)
  | .ok g =>
    if hasSuffix ic g.base64Data suffixes then
      if env.privOk then
        if env.pubOk then
          (⟨1, 1, 1, true, 1, true, false⟩, r2)
        else
          (⟨1, 1, 1, true, 1, false, false⟩, r2)
      else
        (⟨1, 1, 1, false, 0, false, false⟩, r2)
    else
      (⟨1, 0, 0, false, 0, false, false⟩, r2)

/-- The two shared counters of src/main.go lines 79-84, counted in Nat;
the int64 cell holding them is modelled separately by int64OfCount. -/
structure Counters where
  totalAttempts : Nat
  totalMatches : Nat
deriving DecidableEq

/-- Apply the atomic increments of one iteration to the counters. -/
def applyEffects (cnt : Counters) (e : IterEffects) : Counters :=
  ⟨cnt.totalAttempts + e.attemptsDelta, cnt.totalMatches + e.matchesDelta⟩

/-- The worker loop run over a finite schedule of file-system outcomes,
threading the rng state and the shared counters. -/
def workerRun (ic : Bool) (c : Codec) (suffixes : List (List Char)) :
    Chacha20Reader → Counters → List FsEnv → Counters × Chacha20Reader
  | r, cnt, [] => (cnt, r)
  | r, cnt, env :: rest =>
    let p := workerIter ic c suffixes r env
    workerRun ic c suffixes p.2 (applyEffects cnt p.1) rest

/-- The sequence of generate-and-encode results produced by repeatedly
running generateKeys over one worker rng. -/
def genSeq (c : Codec) : Chacha20Reader → Nat → List (Except GenErr GenOut)
  | _, 0 => []
  | r, n + 1 =>
    let p := generateKeys c chachaAsReader r
    p.1 :: genSeq c p.2 n

/-- Result of one worker goroutine from src/main.go lines 88-120: when
newWorker fails the goroutine logs and returns with no iteration run;
otherwise it runs the loop. -/
structure WorkerOutcome where
  initialized : Bool
  counters : Counters

/-- The worker goroutine body (src/main.go lines 88-120). -/
def workerMain (cks : List Nat → List Nat → Nat → Nat) (c : Codec)
    (ic : Bool) (suffixes : List (List Char))
    (keyRead nonceRead : Option (List Nat)) (envs : List FsEnv) :
    WorkerOutcome :=
  match newWorker cks keyRead nonceRead with
  | none => ⟨false, ⟨0, 0⟩⟩
  | some w => ⟨true, (workerRun ic c suffixes w.rng ⟨0, 0⟩ envs).1⟩

/-- wg.Wait at src/main.go line 136 returns only once every worker
goroutine has returned; a goroutine whose newWorker succeeded loops
forever, so the process terminates exactly when every initialization
failed. -/
def processTerminates (inits : List (Option worker)) : Bool :=
  inits.all fun i => i.isNone

/-- Startup validation result of main, src/main.go lines 69-75. -/
inductive MainOutcome where
  | fatalUsage
  | fatalWorkerCount
  | run (spawned : Nat)
deriving DecidableEq

/-- The startup validation of main (src/main.go lines 69-75): an empty
suffix list is fatal first, then a worker count below one; only
otherwise does main reach the spawn loop. -/
def mainStartup (suffixes : List (List Char)) (numWorkers : Int) :
    MainOutcome :=
  if suffixes.length = 0 then .fatalUsage
  else if numWorkers < 1 then .fatalWorkerCount
  else .run numWorkers.toNat

/-- Number of workers the spawn loop (src/main.go lines 86-122) starts. -/
def spawnedWorkers : MainOutcome → Nat
  | .run n => n
  | _ => 0

/-- The whole of main: fatal validation produces no worker outcomes at
all; otherwise one workerMain per spawned worker, fed its entropy reads
and file-system schedule. -/
def mainModel (cks : List Nat → List Nat → Nat → Nat) (c : Codec)
    (ic : Bool) (suffixes : List (List Char)) (numWorkers : Int)
    (inputs : List (Option (List Nat) × Option (List Nat) × List FsEnv)) :
    List WorkerOutcome :=
  match mainStartup suffixes numWorkers with
  | .fatalUsage => []
  | .fatalWorkerCount => []
  | .run n =>
    (inputs.take n).map fun i => workerMain cks c ic suffixes i.1 i.2.1 i.2.2

/-! ### The single-threaded variant in src/unnamed/part_000 -/

/-- One iteration of the loop of the single-threaded variant
(src/unnamed/part_000 lines 31-59).  The attempt counter i is advanced
at the top of the loop before generation; generation runs over the
global crypto/rand reader, so its outcome is an input here.  When the
public-key write fails after a successful private-key write this
variant removes the private-key file (os.Remove, line 54). -/
def simpleIter (ic : Bool) (suffixes : List (List Char))
    (gen : Option GenOut) (env : FsEnv) : IterEffects :=
  match gen with
  | none => ⟨1, 0, 0, false, 0, false, false⟩
  | some g =>
    if hasSuffix ic g.base64Data suffixes then
      if env.privOk then
        if env.pubOk then
          ⟨1, 1, 1, true, 1, true, false⟩
        else
          ⟨1, 1, 1, true, 1, false, true⟩
      else
        ⟨1, 1, 1, false, 0, false, false⟩
    else
      ⟨1, 0, 0, false, 0, false, false⟩

/-! ### The int64 counter cell -/

/-- Two-complement int64 value of a counter cell that started at zero
and was incremented n times by atomic.AddInt64 with delta one. -/
def int64OfCount (n : Nat) : Int :=
  if n % 2 ^ 64 < 2 ^ 63 then ((n % 2 ^ 64 : Nat) : Int)
  else ((n % 2 ^ 64 : Nat) : Int) - 2 ^ 64

/-- Number of attempts counted after running the worker loop over a
schedule of file-system outcomes, starting from zero counters. -/
def attemptsAfter (ic : Bool) (c : Codec) (suffixes : List (List Char))
    (r : Chacha20Reader) (envs : List FsEnv) : Nat :=
  (workerRun ic c suffixes r ⟨0, 0⟩ envs).1.totalAttempts

/-- The int64 value the Reporter (src/main.go lines 125-134) loads at
its poll after the first i iterations of the schedule. -/
def observedAttempts (ic : Bool) (c : Codec) (suffixes : List (List Char))
    (r : Chacha20Reader) (envs : List FsEnv) (i : Nat) : Int :=
  int64OfCount (attemptsAfter ic c suffixes r (envs.take i))

/-! ### Concrete sample values used by witnesses and counterexamples -/

/-- A concrete codec instance: the signer blob is the seed itself, the
PEM text and base64 text are fixed sample strings, the algorithm id is
the ed25519 one. -/
def sampleCodec : Codec :=
  ⟨fun s => some s, fun _ => some "PEM".data, fun _ => "QUFBQg==".data,
   "ssh-ed25519".data⟩

/-- A concrete all-zero keystream family. -/
def zeroKS : List Nat → List Nat → Nat → Nat := fun _ _ _ => 0

/-- A concrete chacha20 reader at position zero over a zero keystream. -/
def sampleReader : Chacha20Reader := ⟨⟨fun _ => 0, 0⟩⟩

/-- A concrete 32-byte key buffer as filled by a successful entropy
read. -/
def key32 : List Nat := List.replicate 32 0

/-- A concrete 24-byte nonce buffer as filled by a successful entropy
read. -/
def nonce24 : List Nat := List.replicate 24 0

/-- The worker newWorker builds from key32 and nonce24 over zeroKS. -/
def sampleWorker : worker := ⟨⟨⟨zeroKS key32 nonce24, 0⟩⟩⟩

/-- The generation output sampleCodec produces over sampleReader. -/
def sampleGenOut : GenOut :=
  ⟨"PEM".data, "ssh-ed25519 QUFBQg==\n".data, "QUFBQg==".data⟩

/-! ## Helper lemmas -/

theorem goHasSuffix_iff (s t : List Char) : goHasSuffix s t = true ↔ t <:+ s := by
  simp only [goHasSuffix, Bool.and_eq_true, decide_eq_true_eq]
  constructor
  · rintro ⟨hle, heq⟩
    exact heq ▸ List.drop_suffix _ _
  · intro h
    exact ⟨h.length_le, (List.suffix_iff_eq_drop.1 h).symm⟩

theorem hasSuffix_spec (ic : Bool) (s : List Char) (S : List (List Char)) :
    hasSuffix ic s S = true ↔ ∃ t ∈ S, foldCase ic t <:+ foldCase ic s := by
  simp only [hasSuffix, List.any_eq_true, goHasSuffix_iff]

theorem foldCase_nil (ic : Bool) : foldCase ic [] = [] := by
  cases ic <;> simp [foldCase, goToLower]

theorem goSplit_no_sep (sep : Char) (l : List Char) (h : sep ∉ l) :
    goSplit sep l = [l] := by
  induction l with
  | nil => rfl
  | cons c cs ih =>
    simp only [List.mem_cons, not_or] at h
    have hc : ¬c = sep := fun e => h.1 e.symm
    simp [goSplit, hc, ih h.2]

theorem goSplit_append_sep (sep : Char) (l1 l2 : List Char) (h1 : sep ∉ l1) :
    goSplit sep (l1 ++ sep :: l2) = l1 :: goSplit sep l2 := by
  induction l1 with
  | nil => simp [goSplit]
  | cons c cs ih =>
    simp only [List.mem_cons, not_or] at h1
    have hc : ¬c = sep := fun e => h1.1 e.symm
    rw [List.cons_append]
    simp only [goSplit, if_neg hc]
    rw [ih h1.2]

theorem dropWhile_cons_of_neg {α : Type} {p : α → Bool} (a : α) (l : List α)
    (h : ¬p a = true) : (a :: l).dropWhile p = a :: l := by
  rw [List.dropWhile_cons, if_neg h]

theorem goTrimSpace_line (alg b : List Char) (ha : alg ≠ [])
    (haw : ∀ ch ∈ alg, ¬ch.isWhitespace) (hb : b ≠ [])
    (hbw : ∀ ch ∈ b, ¬ch.isWhitespace) :
    goTrimSpace (alg ++ ' ' :: b ++ ['\n']) = alg ++ ' ' :: b := by
  obtain ⟨a, as, rfl⟩ := List.exists_cons_of_ne_nil ha
  obtain ⟨y, ys, hy⟩ : ∃ y ys, b.reverse = y :: ys := by
    rcases hr : b.reverse with _ | ⟨y, ys⟩
    · exact absurd (by simpa using congrArg List.reverse hr) hb
    · exact ⟨y, ys, rfl⟩
  have hyw : ¬y.isWhitespace := hbw y (by
    have : y ∈ b.reverse := hy ▸ List.mem_cons_self y ys
    simpa using this)
  have e1 : (a :: as) ++ ' ' :: b ++ ['\n'] = a :: (as ++ (' ' :: (b ++ ['\n']))) := by
    simp
  rw [e1]
  unfold goTrimSpace
  rw [dropWhile_cons_of_neg a _ (by simp [haw a (List.mem_cons_self a as)])]
  have e2 : (a :: (as ++ (' ' :: (b ++ ['\n'])))).reverse
      = '\n' :: (b.reverse ++ (' ' :: (as.reverse ++ [a]))) := by
    simp
  rw [e2, List.dropWhile_cons, if_pos (by decide), hy, List.cons_append,
    dropWhile_cons_of_neg y _ (by simp [hyw])]
  rw [show y :: (ys ++ (' ' :: (as.reverse ++ [a])))
      = (y :: ys) ++ (' ' :: (as.reverse ++ [a])) from rfl, ← hy]
  simp

theorem chachaAsReader_readFull (r : Chacha20Reader) (n : Nat) :
    chachaAsReader.readFull r n =
      (some ((List.range n).map fun i =>
        Nat.xor ((List.replicate n 0).getD i 0) (r.cipher.ks (r.cipher.pos + i))),
       ⟨⟨r.cipher.ks, r.cipher.pos + n⟩⟩) := by
  simp [chachaAsReader, Chacha20Reader.Read, Chacha20Cipher.XORKeyStream]

theorem generateKeys_ok_shape (c : Codec) (r : Chacha20Reader) (g : GenOut)
    (ha : c.algId ≠ []) (haw : ∀ ch ∈ c.algId, ¬ch.isWhitespace)
    (hbne : ∀ bs, c.base64 bs ≠ [])
    (hbw : ∀ bs ch, ch ∈ c.base64 bs → ¬ch.isWhitespace)
    (hok : (generateKeys c chachaAsReader r).1 = .ok g) :
    g.publicKeyBytes = c.algId ++ ' ' :: g.base64Data ++ ['\n'] ∧
    (∃ blob, g.base64Data = c.base64 blob ∧
      goTrimSpace g.publicKeyBytes = c.algId ++ ' ' :: c.base64 blob) ∧
    g.base64Data ≠ goTrimSpace g.publicKeyBytes := by
  rw [generateKeys, chachaAsReader_readFull] at hok
  dsimp only at hok
  set seed := ((List.range 32).map fun i =>
    Nat.xor ((List.replicate 32 0).getD i 0) (r.cipher.ks (r.cipher.pos + i))) with hseed
  rcases hsp : c.newSignerPub seed with _ | pubBlob
  · rw [hsp] at hok; dsimp only at hok; exact absurd hok (by simp)
  rcases hmp : c.marshalPrivatePEM seed with _ | pem
  · rw [hsp, hmp] at hok; dsimp only at hok; exact absurd hok (by simp)
  have hT : goTrimSpace (marshalAuthorizedKey c pubBlob)
      = c.algId ++ ' ' :: c.base64 pubBlob := by
    rw [marshalAuthorizedKey]
    exact goTrimSpace_line _ _ ha haw (hbne _) (fun ch h => hbw _ ch h)
  have h1 : ' ' ∉ c.algId := fun m => haw ' ' m (by decide)
  have h2 : ' ' ∉ c.base64 pubBlob := fun m => hbw _ ' ' m (by decide)
  have hspl : goSplit ' ' (c.algId ++ ' ' :: c.base64 pubBlob)
      = [c.algId, c.base64 pubBlob] := by
    rw [goSplit_append_sep ' ' _ _ h1, goSplit_no_sep ' ' _ h2]
  rw [hsp, hmp] at hok
  dsimp only at hok
  rw [marshalAuthorizedKey] at hT
  simp only [marshalAuthorizedKey, hT, hspl, List.length_cons,
    List.length_singleton] at hok
  norm_num at hok
  subst hok
  have htr : goTrimSpace (c.algId ++ ' ' :: (c.base64 pubBlob ++ ['\n']))
      = c.algId ++ ' ' :: c.base64 pubBlob := by
    rw [show c.algId ++ ' ' :: (c.base64 pubBlob ++ ['\n'])
        = c.algId ++ ' ' :: c.base64 pubBlob ++ ['\n'] from by simp, hT]
  refine ⟨by simp, ⟨pubBlob, rfl, ?_⟩, ?_⟩
  · exact htr
  · dsimp only
    rw [htr]
    intro e
    have := congrArg List.length e
    simp only [List.length_append, List.length_cons] at this
    have hl : 0 < c.algId.length := List.length_pos.2 ha
    omega

theorem workerIter_eq_of_ok (ic : Bool) (c : Codec) (S : List (List Char))
    (r : Chacha20Reader) (env : FsEnv) (g : GenOut)
    (hg : (generateKeys c chachaAsReader r).1 = .ok g) :
    workerIter ic c S r env =
      (if hasSuffix ic g.base64Data S then
        if env.privOk then
          if env.pubOk then ⟨1, 1, 1, true, 1, true, false⟩
          else ⟨1, 1, 1, true, 1, false, false⟩
        else ⟨1, 1, 1, false, 0, false, false⟩
      else ⟨1, 0, 0, false, 0, false, false⟩, (generateKeys c chachaAsReader r).2) := by
  dsimp only [workerIter]
  rw [hg]
  dsimp only
  split_ifs <;> rfl

theorem workerIter_privRemoved_false (ic : Bool) (c : Codec)
    (S : List (List Char)) (r : Chacha20Reader) (env : FsEnv) :
    (workerIter ic c S r env).1.privRemoved = false := by
  dsimp only [workerIter]
  rcases h : (generateKeys c chachaAsReader r).1 with e | g
  · rfl
  · dsimp only
    split
    · split
      · split <;> rfl
      · rfl
    · rfl

theorem workerRun_cons (ic : Bool) (c : Codec) (S : List (List Char))
    (r : Chacha20Reader) (cnt : Counters) (env : FsEnv) (rest : List FsEnv) :
    workerRun ic c S r cnt (env :: rest) =
      workerRun ic c S (workerIter ic c S r env).2
        (applyEffects cnt (workerIter ic c S r env).1) rest := rfl

theorem generateKeys_ne_rngRead {σ : Type} (c : Codec) (rd : GoReader σ)
    (s : σ) (h : (rd.readFull s 32).1 ≠ none) :
    (generateKeys c rd s).1 ≠ .error .rngRead := by
  rw [generateKeys]
  dsimp only
  rcases hr : (rd.readFull s 32).1 with _ | seed
  · exact absurd hr h
  dsimp only
  rcases hsp : c.newSignerPub seed with _ | pb
  · simp
  rcases hmp : c.marshalPrivatePEM seed with _ | pm
  · simp
  dsimp only
  split <;> simp

/-! ## Claim theorems -/

/-- Claim C1: for every candidate text, suffix list and ignore-case flag,
hasSuffix returns true exactly when some configured ending, after the
conditional case fold, is a suffix of the case-folded candidate — a
logical OR over the set with exact trailing equality. -/
theorem hasSuffix_iff_exists_folded_suffix (ic : Bool) (s : List Char)
    (S : List (List Char)) :
    hasSuffix ic s S = true ↔ ∃ t ∈ S, foldCase ic t <:+ foldCase ic s :=
  hasSuffix_spec ic s S

/-- Claim C10: when the empty string is among the configured endings,
hasSuffix accepts every candidate under either flag value, so every
generated key pair counts as a match. -/
theorem hasSuffix_true_of_empty_mem (ic : Bool) (s : List Char)
    (S : List (List Char)) (h : [] ∈ S) : hasSuffix ic s S = true := by
  rw [hasSuffix_spec]
  refine ⟨[], h, ?_⟩
  rw [foldCase_nil]
  exact List.nil_suffix

/-- Witness for C10 at a concrete suffix set and candidate. -/
theorem hasSuffix_true_of_empty_mem_witness :
    ([] ∈ [([] : List Char)]) ∧ hasSuffix true "abc".data [[]] = true :=
  ⟨by decide, hasSuffix_true_of_empty_mem true "abc".data [[]] (by decide)⟩

/-- Counterexample to claim C2: on a concrete generation the text handed
to the suffix test (base64Data, the value main.go line 105 passes to
hasSuffix) differs from the full public-key textual form, both trimmed
and untrimmed — the tested text is a strict substring of that form. -/
theorem suffix_test_text_not_full_form :
    (generateKeys sampleCodec chachaAsReader sampleReader).1 = .ok sampleGenOut ∧
    sampleGenOut.base64Data ≠ goTrimSpace sampleGenOut.publicKeyBytes ∧
    sampleGenOut.base64Data ≠ sampleGenOut.publicKeyBytes :=
  ⟨rfl, by decide, by decide⟩

/-- Claim C2 as amended: the two cited sites test different texts.  In
src/main.go the suffix test operates on base64Data, the base64 blob
field of the public-key line (the second space-separated field of the
trimmed line) — a strict substring of the full textual form, never the
full form itself; in the worker variant of src/unnamed/part_000 lines
206-214 the suffix test operates on publicKeyString, which is exactly
the full form algorithm-id, space, base64 (the trimmed public-key
line), as the claim states. -/
theorem suffix_test_text_is_base64_field (c : Codec) (r : Chacha20Reader)
    (g : GenOut) (ic : Bool) (S : List (List Char)) (ha : c.algId ≠ [])
    (haw : ∀ ch ∈ c.algId, ¬ch.isWhitespace)
    (hbne : ∀ bs, c.base64 bs ≠ [])
    (hbw : ∀ bs ch, ch ∈ c.base64 bs → ¬ch.isWhitespace)
    (hok : (generateKeys c chachaAsReader r).1 = .ok g) :
    g.publicKeyBytes = c.algId ++ ' ' :: g.base64Data ++ ['\n'] ∧
    g.base64Data ≠ goTrimSpace g.publicKeyBytes ∧
    g.base64Data ≠ g.publicKeyBytes ∧
    ∃ blob, g.base64Data = c.base64 blob ∧
      publicKeyString c blob = goTrimSpace g.publicKeyBytes ∧
      variantSuffixTest ic c S blob
        = hasSuffix ic (goTrimSpace g.publicKeyBytes) S := by
  obtain ⟨h1, ⟨blob, hb, htr⟩, h3⟩ :=
    generateKeys_ok_shape c r g ha haw hbne hbw hok
  have hfull : g.base64Data ≠ g.publicKeyBytes := by
    intro e
    have := congrArg List.length (h1 ▸ e)
    simp only [List.length_append, List.length_cons] at this
    have hl : 0 < c.algId.length := List.length_pos.2 ha
    omega
  have hps : publicKeyString c blob = goTrimSpace g.publicKeyBytes := by
    rw [publicKeyString]
    exact htr.symm
  refine ⟨h1, h3, hfull, blob, hb, hps, ?_⟩
  rw [variantSuffixTest, hps]

/-- Witness for the amended C2 at the concrete sample codec and reader. -/
theorem suffix_test_text_is_base64_field_witness :
    (sampleCodec.algId ≠ [] ∧
     (generateKeys sampleCodec chachaAsReader sampleReader).1 = .ok sampleGenOut) ∧
    (sampleGenOut.publicKeyBytes
        = sampleCodec.algId ++ ' ' :: sampleGenOut.base64Data ++ ['\n'] ∧
      sampleGenOut.base64Data ≠ goTrimSpace sampleGenOut.publicKeyBytes ∧
      sampleGenOut.base64Data ≠ sampleGenOut.publicKeyBytes ∧
      ∃ blob, sampleGenOut.base64Data = sampleCodec.base64 blob ∧
        publicKeyString sampleCodec blob
          = goTrimSpace sampleGenOut.publicKeyBytes ∧
        variantSuffixTest false sampleCodec [[]] blob
          = hasSuffix false (goTrimSpace sampleGenOut.publicKeyBytes) [[]]) :=
  ⟨⟨by decide, rfl⟩,
   suffix_test_text_is_base64_field sampleCodec sampleReader sampleGenOut
     false [[]] (by decide) (by decide)
     (fun bs => (by decide : ("QUFBQg==".data : List Char) ≠ []))
     (fun bs ch hch =>
       (by decide : ∀ ch2 ∈ ("QUFBQg==".data : List Char),
         ¬ch2.isWhitespace) ch hch)
     rfl⟩

/-- Claim C3: when a matched candidate has its private-key write fail,
the public-key write is never attempted, totalMatches was incremented
exactly once for that match (no second increment, no decrement), the
private write was attempted exactly once (no retry), and the loop
simply proceeds with the remaining schedule. -/
theorem priv_write_failure_abandons_match (ic : Bool) (c : Codec)
    (S : List (List Char)) (r : Chacha20Reader) (env : FsEnv) (g : GenOut)
    (cnt : Counters) (rest : List FsEnv)
    (hg : (generateKeys c chachaAsReader r).1 = .ok g)
    (hm : hasSuffix ic g.base64Data S = true)
    (hw : env.privOk = false) :
    (workerIter ic c S r env).1.pubWriteAttempts = 0 ∧
    (workerIter ic c S r env).1.matchesDelta = 1 ∧
    (workerIter ic c S r env).1.privWriteAttempts = 1 ∧
    (workerIter ic c S r env).1.privWritten = false ∧
    workerRun ic c S r cnt (env :: rest) =
      workerRun ic c S (workerIter ic c S r env).2
        (applyEffects cnt (workerIter ic c S r env).1) rest := by
  have he := workerIter_eq_of_ok ic c S r env g hg
  rw [if_pos hm, if_neg (by rw [hw]; exact Bool.false_ne_true)] at he
  exact ⟨by rw [he], by rw [he], by rw [he], by rw [he],
    workerRun_cons ic c S r cnt env rest⟩

/-- Witness for C3 at the concrete sample values, with a failing
private-key write. -/
theorem priv_write_failure_abandons_match_witness :
    ((generateKeys sampleCodec chachaAsReader sampleReader).1 = .ok sampleGenOut ∧
     hasSuffix false sampleGenOut.base64Data [[]] = true ∧
     (⟨false, true⟩ : FsEnv).privOk = false) ∧
    ((workerIter false sampleCodec [[]] sampleReader ⟨false, true⟩).1.pubWriteAttempts = 0 ∧
     (workerIter false sampleCodec [[]] sampleReader ⟨false, true⟩).1.matchesDelta = 1 ∧
     (workerIter false sampleCodec [[]] sampleReader ⟨false, true⟩).1.privWriteAttempts = 1 ∧
     (workerIter false sampleCodec [[]] sampleReader ⟨false, true⟩).1.privWritten = false ∧
     workerRun false sampleCodec [[]] sampleReader ⟨0, 0⟩ [⟨false, true⟩] =
       workerRun false sampleCodec [[]]
         (workerIter false sampleCodec [[]] sampleReader ⟨false, true⟩).2
         (applyEffects ⟨0, 0⟩
           (workerIter false sampleCodec [[]] sampleReader ⟨false, true⟩).1) []) :=
  ⟨⟨rfl, by decide, rfl⟩,
   priv_write_failure_abandons_match false sampleCodec [[]] sampleReader
     ⟨false, true⟩ sampleGenOut ⟨0, 0⟩ [] rfl (by decide) rfl⟩

/-- Counterexample to claim C4: at one and the same concrete failure
(private-key write succeeded, public-key write failed on a matched
candidate) the worker loop of src/main.go leaves the orphaned
private-key file, while the loop of src/unnamed/part_000 removes it —
the repository mixes the two policies. -/
theorem pub_write_failure_policy_mixed :
    (workerIter false sampleCodec [[]] sampleReader ⟨true, false⟩).1.privWritten = true ∧
    (workerIter false sampleCodec [[]] sampleReader ⟨true, false⟩).1.privRemoved = false ∧
    (simpleIter false [[]] (some sampleGenOut) ⟨true, false⟩).privWritten = true ∧
    (simpleIter false [[]] (some sampleGenOut) ⟨true, false⟩).privRemoved = true :=
  ⟨rfl, rfl, rfl, rfl⟩

/-- Claim C4 as amended: each implementation applies its own policy
consistently, but the two differ.  The concurrent worker of src/main.go
never removes the private-key file in any branch, so on a public-write
failure the orphaned file is always left; the single-threaded variant of
src/unnamed/part_000 always removes it in exactly that situation. -/
theorem pub_write_failure_policies_consistent_per_file (ic : Bool)
    (c : Codec) (S : List (List Char)) (r : Chacha20Reader) (env : FsEnv)
    (g : GenOut) (hp : env.privOk = true) (hq : env.pubOk = false)
    (hm : hasSuffix ic g.base64Data S = true) :
    (∀ env2 : FsEnv, (workerIter ic c S r env2).1.privRemoved = false) ∧
    simpleIter ic S (some g) env = ⟨1, 1, 1, true, 1, false, true⟩ := by
  refine ⟨fun env2 => workerIter_privRemoved_false ic c S r env2, ?_⟩
  rw [simpleIter]
  rw [if_pos hm, if_pos hp, if_neg (by rw [hq]; exact Bool.false_ne_true)]

/-- Witness for the amended C4 at the concrete sample values. -/
theorem pub_write_failure_policies_consistent_per_file_witness :
    ((⟨true, false⟩ : FsEnv).privOk = true ∧
     (⟨true, false⟩ : FsEnv).pubOk = false ∧
     hasSuffix false sampleGenOut.base64Data [[]] = true) ∧
    ((∀ env2 : FsEnv,
        (workerIter false sampleCodec [[]] sampleReader env2).1.privRemoved = false) ∧
      simpleIter false [[]] (some sampleGenOut) ⟨true, false⟩
        = ⟨1, 1, 1, true, 1, false, true⟩) :=
  ⟨⟨rfl, rfl, by decide⟩,
   pub_write_failure_policies_consistent_per_file false sampleCodec [[]]
     sampleReader ⟨true, false⟩ sampleGenOut rfl rfl (by decide)⟩

/-- Counterexample to claim C5: with two workers, an entropy-read
failure during the first worker initialization makes only that goroutine
return; the second worker initializes and loops, so the process neither
refuses to start nor aborts. -/
theorem entropy_failure_not_process_fatal :
    newWorker zeroKS none (some nonce24) = none ∧
    workerMain zeroKS sampleCodec false [[]] none (some nonce24) []
      = ⟨false, ⟨0, 0⟩⟩ ∧
    processTerminates [newWorker zeroKS none (some nonce24),
      newWorker zeroKS (some key32) (some nonce24)] = false :=
  ⟨rfl, rfl, rfl⟩

/-- Claim C5 as amended: when an entropy read fails during worker
initialization, newWorker propagates the failure, the goroutine logs and
returns having generated nothing (no fallback randomness source exists),
and the process as a whole terminates exactly when every worker
initialization failed — with other initialized workers it keeps
running. -/
theorem entropy_failure_aborts_worker_only
    (cks : List Nat → List Nat → Nat → Nat) (c : Codec) (ic : Bool)
    (S : List (List Char)) (kr nr : Option (List Nat)) (envs : List FsEnv)
    (h : kr = none ∨ nr = none) :
    newWorker cks kr nr = none ∧
    workerMain cks c ic S kr nr envs = ⟨false, ⟨0, 0⟩⟩ ∧
    (∀ inits : List (Option worker),
      processTerminates inits = true ↔ ∀ w ∈ inits, w = none) := by
  have hn : newWorker cks kr nr = none := by
    rcases h with h | h
    · rw [h]; rfl
    · rw [h]; cases kr <;> rfl
  refine ⟨hn, ?_, ?_⟩
  · rw [workerMain, hn]
  · intro inits
    simp [processTerminates, List.all_eq_true, Option.isNone_iff_eq_none]

/-- Witness for the amended C5 at a failing key read. -/
theorem entropy_failure_aborts_worker_only_witness :
    ((none : Option (List Nat)) = none ∨ some nonce24 = none) ∧
    (newWorker zeroKS none (some nonce24) = none ∧
     workerMain zeroKS sampleCodec false [[]] none (some nonce24) []
       = ⟨false, ⟨0, 0⟩⟩ ∧
     (∀ inits : List (Option worker),
       processTerminates inits = true ↔ ∀ w ∈ inits, w = none)) :=
  ⟨Or.inl rfl,
   entropy_failure_aborts_worker_only zeroKS sampleCodec false [[]] none
     (some nonce24) [] (Or.inl rfl)⟩

/-- Claim C6: an empty suffix set or a worker count below one is caught
by the startup validation, no worker is spawned, and the model of main
produces no worker outcomes at all — no generation, matching or
persistence happens. -/
theorem invalid_config_fatal_before_spawn (suffixes : List (List Char))
    (nw : Int) (cks : List Nat → List Nat → Nat → Nat) (c : Codec)
    (ic : Bool)
    (inputs : List (Option (List Nat) × Option (List Nat) × List FsEnv))
    (h : suffixes = [] ∨ nw < 1) :
    (mainStartup suffixes nw = .fatalUsage ∨
     mainStartup suffixes nw = .fatalWorkerCount) ∧
    spawnedWorkers (mainStartup suffixes nw) = 0 ∧
    mainModel cks c ic suffixes nw inputs = [] := by
  by_cases hs : suffixes.length = 0
  · have hm : mainStartup suffixes nw = .fatalUsage := by
      rw [mainStartup, if_pos hs]
    exact ⟨Or.inl hm, by rw [hm]; rfl, by rw [mainModel, hm]⟩
  · have hnw : nw < 1 := by
      rcases h with h | h
      · exact absurd (by rw [h]; rfl) hs
      · exact h
    have hm : mainStartup suffixes nw = .fatalWorkerCount := by
      rw [mainStartup, if_neg hs, if_pos hnw]
    exact ⟨Or.inr hm, by rw [hm]; rfl, by rw [mainModel, hm]⟩

/-- Witness for C6 at an empty suffix set and at a zero worker count. -/
theorem invalid_config_fatal_before_spawn_witness :
    (([] : List (List Char)) = [] ∨ (5 : Int) < 1) ∧
    ((mainStartup [] 5 = .fatalUsage ∨ mainStartup [] 5 = .fatalWorkerCount) ∧
     spawnedWorkers (mainStartup [] 5) = 0 ∧
     mainModel zeroKS sampleCodec false [] 5 [] = []) :=
  ⟨Or.inl rfl,
   invalid_config_fatal_before_spawn [] 5 zeroKS sampleCodec false []
     (Or.inl rfl)⟩

theorem workerRun_append (ic : Bool) (c : Codec) (S : List (List Char))
    (l1 l2 : List FsEnv) : ∀ (r : Chacha20Reader) (cnt : Counters),
    workerRun ic c S r cnt (l1 ++ l2)
      = workerRun ic c S (workerRun ic c S r cnt l1).2
          (workerRun ic c S r cnt l1).1 l2 := by
  induction l1 with
  | nil => intro r cnt; rfl
  | cons e es ih =>
    intro r cnt
    rw [List.cons_append]
    simp only [workerRun]
    exact ih _ _

theorem counters_le_workerRun (ic : Bool) (c : Codec) (S : List (List Char))
    (envs : List FsEnv) : ∀ (r : Chacha20Reader) (cnt : Counters),
    cnt.totalAttempts ≤ (workerRun ic c S r cnt envs).1.totalAttempts := by
  induction envs with
  | nil => intro r cnt; exact le_refl _
  | cons e es ih =>
    intro r cnt
    simp only [workerRun]
    exact le_trans
      (by dsimp only [applyEffects]; exact Nat.le_add_right _ _) (ih _ _)

theorem int64OfCount_of_lt {n : Nat} (h : n < 2 ^ 63) :
    int64OfCount n = n := by
  have h64 : n < 2 ^ 64 := lt_trans h (by norm_num)
  rw [int64OfCount, Nat.mod_eq_of_lt h64, if_pos h]

theorem int64OfCount_mono {a b : Nat} (hab : a ≤ b) (hb : b < 2 ^ 63) :
    int64OfCount a ≤ int64OfCount b := by
  rw [int64OfCount_of_lt (lt_of_le_of_lt hab hb), int64OfCount_of_lt hb]
  exact_mod_cast hab

theorem workerIter_deltas_le_one (ic : Bool) (c : Codec)
    (S : List (List Char)) (r : Chacha20Reader) (env : FsEnv) :
    (workerIter ic c S r env).1.attemptsDelta ≤ 1 ∧
    (workerIter ic c S r env).1.matchesDelta ≤ 1 := by
  dsimp only [workerIter]
  rcases h : (generateKeys c chachaAsReader r).1 with e | g
  · exact ⟨by simp [noEffects], by simp [noEffects]⟩
  · dsimp only
    split
    · split
      · split
        · exact ⟨le_refl _, le_refl _⟩
        · exact ⟨le_refl _, le_refl _⟩
      · exact ⟨le_refl _, le_refl _⟩
    · exact ⟨le_refl _, Nat.zero_le _⟩

theorem attemptsAfter_take_le (ic : Bool) (c : Codec) (S : List (List Char))
    (r : Chacha20Reader) (envs : List FsEnv) (i j : Nat) (hij : i ≤ j) :
    attemptsAfter ic c S r (envs.take i)
      ≤ attemptsAfter ic c S r (envs.take j) := by
  have h1 : envs.take i = (envs.take j).take i := by
    rw [List.take_take, min_eq_left hij]
  have h2 : envs.take j = envs.take i ++ (envs.take j).drop i := by
    rw [h1]; exact (List.take_append_drop i (envs.take j)).symm
  rw [attemptsAfter, attemptsAfter]
  conv_rhs => rw [h2]
  rw [workerRun_append]
  exact counters_le_workerRun ic c S _ _ _

theorem workerIter_sample_full (r : Chacha20Reader) :
    workerIter false sampleCodec [[]] r ⟨true, true⟩
      = (⟨1, 1, 1, true, 1, true, false⟩,
         ⟨⟨r.cipher.ks, r.cipher.pos + 32⟩⟩) := rfl

theorem attempts_replicate (n : Nat) :
    ∀ (r : Chacha20Reader) (cnt : Counters),
    (workerRun false sampleCodec [[]] r cnt
      (List.replicate n ⟨true, true⟩)).1.totalAttempts
      = cnt.totalAttempts + n := by
  induction n with
  | zero => intro r cnt; rfl
  | succ k ih =>
    intro r cnt
    rw [List.replicate_succ]
    simp only [workerRun]
    rw [workerIter_sample_full]
    dsimp only [applyEffects]
    rw [ih]
    dsimp only
    omega

/-- Counterexample to claim C7: the counters live in an int64 cell, so
after 2 to the 63rd increments the loaded value wraps negative — the
Reporter poll taken after 2 to the 63rd iterations observes a value
strictly below the poll taken one iteration earlier in the same run. -/
theorem observed_attempts_wrap_decreases :
    observedAttempts false sampleCodec [[]] sampleReader
      (List.replicate (2 ^ 63) ⟨true, true⟩) (2 ^ 63) <
    observedAttempts false sampleCodec [[]] sampleReader
      (List.replicate (2 ^ 63) ⟨true, true⟩) (2 ^ 63 - 1) := by
  rw [observedAttempts, observedAttempts, List.take_replicate,
    List.take_replicate, min_self,
    min_eq_left (by omega : 2 ^ 63 - 1 ≤ 2 ^ 63)]
  rw [attemptsAfter, attemptsAfter,
    attempts_replicate (2 ^ 63) sampleReader ⟨0, 0⟩,
    attempts_replicate (2 ^ 63 - 1) sampleReader ⟨0, 0⟩]
  rw [show (⟨0, 0⟩ : Counters).totalAttempts = 0 from rfl]
  rw [int64OfCount, int64OfCount]
  norm_num

/-- Claim C7 as amended: every counter update is an atomic increment by
one (each iteration contributes at most one to each counter), so the
attempt count is non-decreasing across polls, and the int64 value the
Reporter observes at a later poll is greater than or equal to an earlier
poll as long as the total number of increments stays below 2 to the 63rd
— beyond that the int64 cell wraps and the observed value decreases. -/
theorem reporter_observed_attempts_monotone (ic : Bool) (c : Codec)
    (S : List (List Char)) (r : Chacha20Reader) (envs : List FsEnv)
    (i j : Nat) (hij : i ≤ j)
    (hbound : attemptsAfter ic c S r (envs.take j) < 2 ^ 63) :
    observedAttempts ic c S r envs i ≤ observedAttempts ic c S r envs j ∧
    (∀ (r2 : Chacha20Reader) (env : FsEnv),
      (workerIter ic c S r2 env).1.attemptsDelta ≤ 1 ∧
      (workerIter ic c S r2 env).1.matchesDelta ≤ 1) := by
  refine ⟨?_, fun r2 env => workerIter_deltas_le_one ic c S r2 env⟩
  rw [observedAttempts, observedAttempts]
  exact int64OfCount_mono (attemptsAfter_take_le ic c S r envs i j hij) hbound

/-- Witness for the amended C7 at two concrete polls of a one-element
schedule. -/
theorem reporter_observed_attempts_monotone_witness :
    ((0 : Nat) ≤ 1 ∧
     attemptsAfter false sampleCodec [[]] sampleReader
       (List.take 1 ([⟨true, true⟩] : List FsEnv)) < 2 ^ 63) ∧
    (observedAttempts false sampleCodec [[]] sampleReader [⟨true, true⟩] 0 ≤
      observedAttempts false sampleCodec [[]] sampleReader [⟨true, true⟩] 1 ∧
     (∀ (r2 : Chacha20Reader) (env : FsEnv),
       (workerIter false sampleCodec [[]] r2 env).1.attemptsDelta ≤ 1 ∧
       (workerIter false sampleCodec [[]] r2 env).1.matchesDelta ≤ 1)) :=
  ⟨⟨by omega, by decide⟩,
   reporter_observed_attempts_monotone false sampleCodec [[]] sampleReader
     [⟨true, true⟩] 0 1 (by omega) (by decide)⟩

/-- Claim C8: key generation reads only the worker rng; two workers
built from the same key and nonce seed hold the same rng state, so any
number of generate-and-encode runs over them produce byte-for-byte
identical private-key PEMs, public-key lines and base64 encodings. -/
theorem generation_deterministic_for_seed
    (cks : List Nat → List Nat → Nat → Nat) (c : Codec)
    (key nonce : List Nat) (w1 w2 : worker) (n : Nat)
    (h1 : newWorker cks (some key) (some nonce) = some w1)
    (h2 : newWorker cks (some key) (some nonce) = some w2) :
    genSeq c w1.rng n = genSeq c w2.rng n := by
  rw [h1] at h2
  cases h2
  rfl

/-- Witness for C8 at a concrete keystream, key and nonce. -/
theorem generation_deterministic_for_seed_witness :
    (newWorker zeroKS (some key32) (some nonce24) = some sampleWorker ∧
     newWorker zeroKS (some key32) (some nonce24) = some sampleWorker) ∧
    genSeq sampleCodec sampleWorker.rng 3
      = genSeq sampleCodec sampleWorker.rng 3 :=
  ⟨⟨rfl, rfl⟩,
   generation_deterministic_for_seed zeroKS sampleCodec key32 nonce24
     sampleWorker sampleWorker 3 rfl rfl⟩

/-- Claim C9: the chacha20 reader Read is total — it fills every
requested byte and returns the full length with a nil error — and
consequently generateKeys over a worker rng can never take the error
branch caused by an rng read failure. -/
theorem chacha_read_total_and_rng_branch_unreachable (r : Chacha20Reader)
    (n : Nat) (c : Codec) (s : Chacha20Reader) :
    (r.Read n).1.1.length = n ∧ (r.Read n).1.2.1 = n ∧
    (r.Read n).1.2.2 = none ∧
    (generateKeys c chachaAsReader s).1 ≠ .error .rngRead := by
  refine ⟨?_, rfl, rfl, ?_⟩
  · simp [Chacha20Reader.Read, Chacha20Cipher.XORKeyStream]
  · exact generateKeys_ne_rngRead c chachaAsReader s
      (by rw [chachaAsReader_readFull]; exact Option.some_ne_none _)

end Sshkeygen
